import Mathlib

/-
Verification of the TorrServer debrid resolver and stream converter.

Strings are modelled as lists of characters (`LC`).  External utilities
(the generic cache, the text hasher, `encodeURIComponent`, the URL
serializer and the file selector) are taken as abstract parameters; the
functions of the repository itself are translated directly from the
TypeScript source.
-/

abbrev LC := List Char

/-- Character class of the regex fragment `[a-fA-F0-9]`. -/
def isHexChar (c : Char) : Bool :=
  (('0' ≤ c) && (c ≤ '9')) || (('a' ≤ c) && (c ≤ 'f')) || (('A' ≤ c) && (c ≤ 'F'))

/-- Case-insensitive test for the literal `btih:` at the head of the list,
as matched by the regex `/btih:([a-fA-F0-9]\x7b40\x7d)/i`. -/
def btihAt : LC → Bool
  | c1 :: c2 :: c3 :: c4 :: c5 :: _ =>
    (c1 == 'b' || c1 == 'B') && (c2 == 't' || c2 == 'T') &&
    (c3 == 'i' || c3 == 'I') && (c4 == 'h' || c4 == 'H') && (c5 == ':')
  | _ => false

/-- The capture group `([a-fA-F0-9]\x7b40\x7d)` of the hash regex: exactly 40
hex characters, returned lowercased as `extractHashFromMagnet` does with
`match[1].toLowerCase()`. -/
def hexCapture (s : LC) : Option LC :=
  let h := s.take 40
  if h.length == 40 && h.all isHexChar then some (h.map Char.toLower) else none

/-- `extractHashFromMagnet` (torrserver.ts): first match of
`/btih:([a-fA-F0-9]\x7b40\x7d)/i` in the magnet string, lowercased;
`none` when the regex does not match. -/
def extractHashFromMagnet : LC → Option LC
  | [] => none
  | c :: cs =>
    if btihAt (c :: cs) then
      match hexCapture ((c :: cs).drop 5) with
      | some h => some h
      | none => extractHashFromMagnet cs
    else extractHashFromMagnet cs

/-- The fixed head of every constructed magnet URI. -/
def magnetHead : LC := "magnet:?xt=urn:btih:".data

/-- Magnet construction in `_resolve` (torrserver.ts): the raw hash with the
sources joined by the tracker separator. -/
def buildMagnet (hash : LC) (sources : List LC) : LC :=
  let m := magnetHead ++ hash
  if sources.length > 0 then m ++ ("&tr=".data ++ List.intercalate "&tr=".data sources)
  else m

/-- `buildMagnetLink` (torrserver-converter.ts): like `buildMagnet` but each
tracker goes through `encodeURIComponent`, modelled by the abstract `enc`. -/
def buildMagnetLink (enc : LC → LC) (infoHash : LC) (trackers : List LC) : LC :=
  let m := magnetHead ++ infoHash
  if trackers.length > 0 then
    m ++ ("&tr=".data ++ List.intercalate "&tr=".data (trackers.map enc))
  else m

theorem btihAt_false (c : Char) (cs : LC) (h : (c == 'b' || c == 'B') = false) :
    btihAt (c :: cs) = false := by
  match cs with
  | [] => rfl
  | [_] => rfl
  | [_, _] => rfl
  | [_, _, _] => rfl
  | _ :: _ :: _ :: _ :: _ => simp [btihAt, h]

theorem extract_skip (c : Char) (cs : LC) (h : (c == 'b' || c == 'B') = false) :
    extractHashFromMagnet (c :: cs) = extractHashFromMagnet cs := by
  simp [extractHashFromMagnet, btihAt_false c cs h]

theorem extract_hit (hash rest : LC) (hlen : hash.length = 40)
    (hhex : hash.all isHexChar = true) :
    extractHashFromMagnet ('b' :: 't' :: 'i' :: 'h' :: ':' :: (hash ++ rest)) =
      some (hash.map Char.toLower) := by
  have hcap : hexCapture (hash ++ rest) = some (hash.map Char.toLower) := by
    have ht : (hash ++ rest).take 40 = hash := by
      rw [← hlen]; exact List.take_left hash rest
    simp [hexCapture, ht, hlen, hhex]
  simp [extractHashFromMagnet, btihAt, hcap]

theorem magnetHead_chars :
    magnetHead = ['m', 'a', 'g', 'n', 'e', 't', ':', '?', 'x', 't', '=',
      'u', 'r', 'n', ':', 'b', 't', 'i', 'h', ':'] := rfl

theorem extract_head (hash rest : LC) (hlen : hash.length = 40)
    (hhex : hash.all isHexChar = true) :
    extractHashFromMagnet (magnetHead ++ (hash ++ rest)) =
      some (hash.map Char.toLower) := by
  rw [magnetHead_chars]
  simp only [List.cons_append, List.nil_append]
  rw [extract_skip 'm' _ rfl, extract_skip 'a' _ rfl, extract_skip 'g' _ rfl,
    extract_skip 'n' _ rfl, extract_skip 'e' _ rfl, extract_skip 't' _ rfl,
    extract_skip ':' _ rfl, extract_skip '?' _ rfl, extract_skip 'x' _ rfl,
    extract_skip 't' _ rfl, extract_skip '=' _ rfl, extract_skip 'u' _ rfl,
    extract_skip 'r' _ rfl, extract_skip 'n' _ rfl, extract_skip ':' _ rfl]
  exact extract_hit hash rest hlen hhex

/-- C2: for every 40-character hexadecimal hash and every sequence of tracker
URIs, extracting the info hash from the magnet URI built from
`(hash, sources)` — by `_resolve`'s inline construction as well as by the
converter's `buildMagnetLink` with any tracker encoder — succeeds and yields
the lowercase form of the original hash. -/
theorem magnet_hash_roundtrip (hash : LC) (sources : List LC)
    (hlen : hash.length = 40) (hhex : hash.all isHexChar = true) :
    extractHashFromMagnet (buildMagnet hash sources) = some (hash.map Char.toLower) ∧
    ∀ enc : LC → LC,
      extractHashFromMagnet (buildMagnetLink enc hash sources) =
        some (hash.map Char.toLower) := by
  constructor
  · unfold buildMagnet
    by_cases h : sources.length > 0
    · simp only [h, if_true, List.append_assoc]
      exact extract_head hash _ hlen hhex
    · simp only [h, if_false]
      have : magnetHead ++ hash = magnetHead ++ (hash ++ []) := by simp
      rw [this]; exact extract_head hash [] hlen hhex
  · intro enc
    unfold buildMagnetLink
    by_cases h : sources.length > 0
    · simp only [h, if_true, List.append_assoc]
      exact extract_head hash _ hlen hhex
    · simp only [h, if_false]
      have : magnetHead ++ hash = magnetHead ++ (hash ++ []) := by simp
      rw [this]; exact extract_head hash [] hlen hhex

/-- Witness for C2 at a concrete mixed-case hash and one tracker. -/
theorem magnet_hash_roundtrip_witness :
    extractHashFromMagnet
        (buildMagnet "A1b2C3d4E5f60718293a4B5c6D7e8F9012345678".data
          ["udp://tracker.example:80".data]) =
      some "a1b2c3d4e5f60718293a4b5c6d7e8f9012345678".data := by
  have h := magnet_hash_roundtrip "A1b2C3d4E5f60718293a4B5c6D7e8F9012345678".data
    ["udp://tracker.example:80".data] (by decide) (by decide)
  rw [h.1]; decide

/-- Internal status enum (`DebridDownload['status']` as used by this service). -/
inductive TSStatus
  | queued
  | downloading
  | cached
  | unknown
deriving DecidableEq, BEq, Repr

/-- `file_stats` entry of a TorrServer torrent. -/
structure TSFileStat where
  id : Nat
  path : LC
  length : Nat
deriving DecidableEq, Repr

/-- Raw torrent record of the gateway's list response (`TorrServerTorrent`). -/
structure TorrServerTorrent where
  hash : LC
  title : Option LC
  size : Option Nat
  stat : Option Nat
  file_stats : Option (List TSFileStat)
deriving DecidableEq, Repr

/-- File entry of a `DebridDownload`. -/
structure DebridFile where
  index : Nat
  name : Option LC
  size : Nat
deriving DecidableEq, Repr

/-- `DebridDownload` as produced and consumed by the TorrServer service. -/
structure DebridDownload where
  id : LC
  hash : Option LC
  name : Option LC
  size : Option Nat
  status : TSStatus
  files : Option (List DebridFile)
deriving DecidableEq, Repr

/-- `mapTorrServerStatus` (torrserver.ts): 0 is queued, 1 downloading,
2 cached, anything else (including a missing stat) unknown. -/
def mapTorrServerStatus : Option Nat → TSStatus
  | some 0 => .queued
  | some 1 => .downloading
  | some 2 => .cached
  | _ => .unknown

/-- The per-torrent mapping inside `listMagnets`. -/
def torrentToDownload (t : TorrServerTorrent) : DebridDownload :=
  { id := t.hash
    hash := some t.hash
    name := t.title
    size := t.size
    status := mapTorrServerStatus t.stat
    files := t.file_stats.map (fun fs => fs.map (fun f => ⟨f.id, some f.path, f.length⟩)) }

/-- `listMagnets` outcome given the gateway response: a failed request or a
missing torrent array collapses to the empty list. -/
def listMagnetsOf : Option (List TorrServerTorrent) → List DebridDownload
  | none => []
  | some ts => ts.map torrentToDownload

/-- Outbound HTTP request as assembled by `torrserverRequest`. -/
structure TSRequest where
  url : LC
  headers : List (LC × LC)
deriving DecidableEq, Repr

/-- `torrserverRequest` (torrserver.ts): the URL is the configured base joined
with the endpoint; a Content-Type header is always sent, and when a credential
is configured it is placed verbatim after the word Basic in an Authorization
header. -/
def torrserverRequest (torrserverUrl : LC) (auth : Option LC) (endpoint : LC) :
    TSRequest :=
  { url := torrserverUrl ++ endpoint
    headers :=
      [("Content-Type".data, "application/json".data)] ++
      (match auth with
       | some a => [("Authorization".data, "Basic ".data ++ a)]
       | none => []) }

/-- C3 (counterexample): for the colon-free credential abc123 the claim says
the credential is appended as a query parameter and not sent in a header; the
built request instead carries an Authorization header and its URL is exactly
base plus endpoint, with no query parameter added. -/
theorem torrserverRequest_auth_counterexample :
    ("abc123".data.contains ':') = false ∧
    ((torrserverRequest "http://ts.local".data (some "abc123".data)
        "/torrents".data).headers.any
      (fun kv => kv.1 == "Authorization".data)) = true ∧
    (torrserverRequest "http://ts.local".data (some "abc123".data)
        "/torrents".data).url = "http://ts.local/torrents".data := by
  decide

/-- C3 (amended): every outbound gateway request attaches the configured
credential verbatim in a Basic Authorization header — whether or not it
contains a colon, and without base64 re-encoding — and the request URL is
exactly the base joined with the endpoint, never carrying the credential;
with no configured credential only the Content-Type header is sent. -/
theorem torrserverRequest_auth (base endpoint auth : LC) :
    (torrserverRequest base (some auth) endpoint).url = base ++ endpoint ∧
    (torrserverRequest base (some auth) endpoint).headers =
      [("Content-Type".data, "application/json".data),
       ("Authorization".data, "Basic ".data ++ auth)] ∧
    (torrserverRequest base none endpoint).headers =
      [("Content-Type".data, "application/json".data)] :=
  ⟨rfl, rfl, rfl⟩

/-- Cache key of the instant-availability check cache in `checkMagnets`. -/
def tsCheckKey (textHash : LC → LC) (hash : LC) : LC :=
  "torrserver:".data ++ textHash hash

/-- The synthetic availability entry `checkMagnets` fabricates for magnets it
did not find in the check cache. -/
def mkInstantResult (hash : LC) : DebridDownload :=
  { id := hash, hash := some hash, name := none, size := none,
    status := .cached, files := some [] }

/-- The first loop of `checkMagnets`: split the magnets into cache hits and
magnets still to check, dropping magnets without an extractable hash. -/
def checkPartition (cacheGet : LC → Option DebridDownload) (textHash : LC → LC) :
    List LC → List DebridDownload × List LC
  | [] => ([], [])
  | m :: ms =>
    let rest := checkPartition cacheGet textHash ms
    match extractHashFromMagnet m with
    | none => rest
    | some h =>
      match cacheGet (tsCheckKey textHash h) with
      | some d => (d :: rest.1, rest.2)
      | none => (rest.1, m :: rest.2)

/-- `checkMagnets` (torrserver.ts): cache hits first, then a fabricated
cached-with-no-files entry for every remaining magnet with a valid hash. -/
def checkMagnets (cacheGet : LC → Option DebridDownload) (textHash : LC → LC)
    (magnets : List LC) : List DebridDownload :=
  let p := checkPartition cacheGet textHash magnets
  p.1 ++ p.2.map (fun m => mkInstantResult ((extractHashFromMagnet m).getD []))

theorem checkPartition_length (cacheGet : LC → Option DebridDownload)
    (textHash : LC → LC) (magnets : List LC) :
    (checkPartition cacheGet textHash magnets).1.length +
      (checkPartition cacheGet textHash magnets).2.length =
      (magnets.filter (fun m => (extractHashFromMagnet m).isSome)).length := by
  induction magnets with
  | nil => rfl
  | cons m ms ih =>
    unfold checkPartition
    cases hm : extractHashFromMagnet m with
    | none => simpa [List.filter, hm] using ih
    | some h =>
      cases hc : cacheGet (tsCheckKey textHash h) with
      | none => simp [List.filter, hm, hc]; omega
      | some d => simp [List.filter, hm, hc]; omega

theorem checkPartition_fst_from_cache (cacheGet : LC → Option DebridDownload)
    (textHash : LC → LC) (magnets : List LC) :
    ∀ d ∈ (checkPartition cacheGet textHash magnets).1, ∃ k, cacheGet k = some d := by
  induction magnets with
  | nil => intro d hd; cases hd
  | cons m ms ih =>
    intro d hd
    cases hm : extractHashFromMagnet m with
    | none =>
      simp only [checkPartition, hm] at hd
      exact ih d hd
    | some h =>
      cases hc : cacheGet (tsCheckKey textHash h) with
      | none =>
        simp only [checkPartition, hm, hc] at hd
        exact ih d hd
      | some d' =>
        simp only [checkPartition, hm, hc] at hd
        rcases List.mem_cons.mp hd with he | hmem
        · exact ⟨tsCheckKey textHash h, by rw [hc, he]⟩
        · exact ih d hmem

/-- C9: checkMagnets returns one entry per magnet containing a valid
40-hex btih hash (magnets without one are silently dropped), and every entry
not served from the check cache has status cached and an empty files list. -/
theorem checkMagnets_spec (cacheGet : LC → Option DebridDownload)
    (textHash : LC → LC) (magnets : List LC) :
    (checkMagnets cacheGet textHash magnets).length =
      (magnets.filter (fun m => (extractHashFromMagnet m).isSome)).length ∧
    ∀ d ∈ checkMagnets cacheGet textHash magnets,
      (∃ k, cacheGet k = some d) ∨
      (d.status = TSStatus.cached ∧ d.files = some []) := by
  constructor
  · unfold checkMagnets
    rw [List.length_append, List.length_map]
    exact checkPartition_length cacheGet textHash magnets
  · intro d hd
    unfold checkMagnets at hd
    rcases List.mem_append.mp hd with hfst | hsnd
    · exact Or.inl (checkPartition_fst_from_cache cacheGet textHash magnets d hfst)
    · rcases List.mem_map.mp hsnd with ⟨m, _, he⟩
      exact Or.inr (by rw [← he]; exact ⟨rfl, rfl⟩)

/-- Witness for C9: an empty cache, one valid magnet and one with a too-short
hash produce exactly one fabricated entry, cached with no files. -/
theorem checkMagnets_spec_witness :
    (checkMagnets (fun _ => none) (fun s => s)
        ["magnet:?xt=urn:btih:aaaaaaaaaaaaaaaaaaaaaaaaaaaaaaaaaaaaaaaa".data,
         "magnet:?xt=urn:btih:zzzz".data]).length = 1 ∧
    ((∃ k, (fun (_ : LC) => (none : Option DebridDownload)) k =
        some (mkInstantResult "aaaaaaaaaaaaaaaaaaaaaaaaaaaaaaaaaaaaaaaa".data)) ∨
     ((mkInstantResult "aaaaaaaaaaaaaaaaaaaaaaaaaaaaaaaaaaaaaaaa".data).status =
        TSStatus.cached ∧
      (mkInstantResult "aaaaaaaaaaaaaaaaaaaaaaaaaaaaaaaaaaaaaaaa".data).files =
        some [])) := by
  have h := checkMagnets_spec (fun _ => none) (fun s => s)
    ["magnet:?xt=urn:btih:aaaaaaaaaaaaaaaaaaaaaaaaaaaaaaaaaaaaaaaa".data,
     "magnet:?xt=urn:btih:zzzz".data]
  exact ⟨h.1.trans (by decide),
    h.2 (mkInstantResult "aaaaaaaaaaaaaaaaaaaaaaaaaaaaaaaaaaaaaaaa".data) (by decide)⟩

/-- Structured URL as manipulated by the builders: origin, userinfo, path and
the ordered search parameters. -/
structure StreamUrl where
  base : LC
  userinfo : Option (LC × LC)
  path : LC
  params : List (LC × LC)
deriving DecidableEq, Repr

/-- URLSearchParams.set: overwrite the first binding of the key and drop any
later duplicates; append when the key is absent. -/
def setParam : List (LC × LC) → LC → LC → List (LC × LC)
  | [], k, v => [(k, v)]
  | (k', v') :: rest, k, v =>
    if k' == k then (k, v) :: rest.filter (fun kv => !(kv.1 == k))
    else (k', v') :: setParam rest k v

/-- String.includes with a colon argument. -/
def hasColon : LC → Bool
  | [] => false
  | c :: cs => (c == ':') || hasColon cs

/-- JavaScript whitespace as trimmed by String.trim (ASCII part). -/
def isJsSpace (c : Char) : Bool :=
  c == ' ' || c == '\t' || c == '\n' || c == '\r' || c == '\x0b' || c == '\x0c'

/-- String.trim. -/
def jsTrim (s : LC) : LC :=
  ((s.dropWhile isJsSpace).reverse.dropWhile isJsSpace).reverse

/-- Split at the first colon, as `indexOf` plus the two `substring` calls in
`addAuthToStreamUrl` do: everything before the first colon, and everything
after it. -/
def splitFirstColon : LC → LC × LC
  | [] => ([], [])
  | c :: cs =>
    if c == ':' then ([], cs)
    else
      let p := splitFirstColon cs
      (c :: p.1, p.2)

/-- `addAuthToStreamUrl` (converter): a trimmed credential with a colon is
split on the first colon and stored as URL username and password; a colon-free
non-empty credential is set as the apikey query parameter. -/
def addAuthToStreamUrl (auth : Option LC) (u : StreamUrl) : StreamUrl :=
  match auth with
  | none => u
  | some a =>
    let t := jsTrim a
    if t.isEmpty then u
    else if hasColon t then
      { u with userinfo := some (splitFirstColon t) }
    else
      { u with params := setParam u.params "apikey".data t }

/-- Result of `selectFileInTorrentOrNZB`, as consumed by the URL builder. -/
structure SelectedFile where
  name : Option LC
  index : Option Nat
deriving DecidableEq, Repr

/-- The coordinator's stream URL construction in `_resolve` (torrserver.ts):
a path carrying the encoded selected file name, then exactly the link and
index query parameters. -/
def resolveStreamUrl (enc : LC → LC) (torrserverUrl magnet : LC)
    (f : SelectedFile) : StreamUrl :=
  let u : StreamUrl := { base := torrserverUrl, userinfo := none,
                         path := "/stream/".data ++ enc (f.name.getD []),
                         params := [] }
  let u1 := { u with params := setParam u.params "link".data magnet }
  { u1 with params := setParam u1.params "index".data (Nat.repr (f.index.getD 0)).data }

/-- Torrent information attached to a parsed stream. -/
structure TorrentInfo where
  infoHash : LC
  sources : Option (List LC)
  fileIdx : Option Nat
deriving DecidableEq, Repr

/-- The converter's stream URL before authentication: link, play, save, and a
one-based index defaulting to 1. -/
def convertedBaseUrl (enc : LC → LC) (torrServerUrl : LC) (t : TorrentInfo) :
    StreamUrl :=
  let magnet := buildMagnetLink enc t.infoHash (t.sources.getD [])
  let u : StreamUrl := { base := torrServerUrl, userinfo := none,
                         path := "/stream".data, params := [] }
  let u1 := { u with params := setParam u.params "link".data magnet }
  let u2 := { u1 with params := setParam u1.params "play".data "1".data }
  let u3 := { u2 with params := setParam u2.params "save".data "true".data }
  { u3 with params :=
      match t.fileIdx with
      | some i => setParam u3.params "index".data (Nat.repr (i + 1)).data
      | none => setParam u3.params "index".data "1".data }

/-- The converter's full stream URL: the templated URL with authentication
applied last. -/
def convertedStreamUrl (enc : LC → LC) (torrServerUrl : LC) (auth : Option LC)
    (t : TorrentInfo) : StreamUrl :=
  addAuthToStreamUrl auth (convertedBaseUrl enc torrServerUrl t)

/-- Service tag of a converted stream. -/
structure ServiceInfo where
  id : LC
  cached : Bool
deriving DecidableEq, Repr

/-- The fields of `ParsedStream` the converter reads or writes. -/
structure ParsedStream where
  type : LC
  url : Option LC
  externalUrl : Option LC
  torrent : Option TorrentInfo
  filename : Option LC
  service : Option ServiceInfo
deriving DecidableEq, Repr

/-- JavaScript truthiness of an optional string: present and non-empty. -/
def truthyStr : Option LC → Bool
  | none => false
  | some s => !s.isEmpty

/-- The conversion guard of `convert`: a p2p stream with a torrent info hash
and with neither url nor externalUrl set. -/
def shouldConvert (s : ParsedStream) : Bool :=
  s.type == "p2p".data &&
  (match s.torrent with
   | some t => !t.infoHash.isEmpty
   | none => false) &&
  !truthyStr s.url && !truthyStr s.externalUrl

/-- Per-stream body of `convert`: qualifying p2p streams become debrid streams
with a templated URL; everything else passes through. -/
def convertOne (enc : LC → LC) (serialize : StreamUrl → LC)
    (torrServerUrl : LC) (auth : Option LC) (s : ParsedStream) : ParsedStream :=
  if shouldConvert s then
    match s.torrent with
    | some t =>
      { s with
        url := some (serialize (convertedStreamUrl enc torrServerUrl auth t))
        type := "debrid".data
        service := some { id := "torrserver".data, cached := true } }
    | none => s
  else s

/-- Converter configuration extracted from the user's services. -/
structure ConverterCfg where
  hasTorrServer : Bool
  torrServerUrl : Option LC
  torrServerAuth : Option LC

/-- `convert` (torrserver-converter.ts): without a configured TorrServer the
list passes through untouched, otherwise it is mapped element-wise. -/
def convertStreams (enc : LC → LC) (serialize : StreamUrl → LC)
    (cfg : ConverterCfg) (streams : List ParsedStream) : List ParsedStream :=
  if !(cfg.hasTorrServer && truthyStr cfg.torrServerUrl) then streams
  else streams.map (convertOne enc serialize (cfg.torrServerUrl.getD [])
    cfg.torrServerAuth)

theorem setParam_mem_self (q : List (LC × LC)) (k v : LC) :
    (k, v) ∈ setParam q k v := by
  induction q with
  | nil => exact List.mem_singleton.mpr rfl
  | cons kv rest ih =>
    obtain ⟨a, b⟩ := kv
    by_cases h : (a == k) = true
    · simp only [setParam, h, if_true]
      exact List.mem_cons_self _ _
    · have h' : (a == k) = false := by
        cases hb : (a == k) with
        | true => exact absurd hb h
        | false => rfl
      simp only [setParam, h', Bool.false_eq_true, if_false]
      exact List.mem_cons_of_mem _ ih

theorem setParam_mem_of_ne (q : List (LC × LC)) (k v k' v' : LC)
    (hm : (k, v) ∈ q) (hk : (k == k') = false) : (k, v) ∈ setParam q k' v' := by
  induction q with
  | nil => cases hm
  | cons kv rest ih =>
    obtain ⟨a, b⟩ := kv
    by_cases h : (a == k') = true
    · simp only [setParam, h, if_true]
      rcases List.mem_cons.mp hm with he | hmem
      · obtain ⟨h1, h2⟩ := Prod.mk.injEq .. ▸ he
        exfalso
        have : (k == k') = true := by
          rw [h1]; exact h
        rw [this] at hk; cases hk
      · refine List.mem_cons_of_mem _ (List.mem_filter.mpr ⟨hmem, ?_⟩)
        simp only [hk, Bool.not_false]
    · have h' : (a == k') = false := by
        cases hb : (a == k') with
        | true => exact absurd hb h
        | false => rfl
      simp only [setParam, h', Bool.false_eq_true, if_false]
      rcases List.mem_cons.mp hm with he | hmem
      · exact he ▸ List.mem_cons_self _ _
      · exact List.mem_cons_of_mem _ (ih hmem)

theorem addAuth_params_mem (auth : Option LC) (u : StreamUrl) (k v : LC)
    (hm : (k, v) ∈ u.params) (hk : (k == "apikey".data) = false) :
    (k, v) ∈ (addAuthToStreamUrl auth u).params := by
  cases auth with
  | none => exact hm
  | some a =>
    simp only [addAuthToStreamUrl]
    by_cases h1 : (jsTrim a).isEmpty = true
    · simp only [h1, if_true]; exact hm
    · have h1' : (jsTrim a).isEmpty = false := by
        cases hb : (jsTrim a).isEmpty with
        | true => exact absurd hb h1
        | false => rfl
      simp only [h1', Bool.false_eq_true, if_false]
      by_cases h2 : hasColon (jsTrim a) = true
      · simp only [h2, if_true]; exact hm
      · have h2' : hasColon (jsTrim a) = false := by
          cases hb : hasColon (jsTrim a) with
          | true => exact absurd hb h2
          | false => rfl
        simp only [h2', Bool.false_eq_true, if_false]
        exact setParam_mem_of_ne u.params k v "apikey".data (jsTrim a) hm hk

theorem splitFirstColon_append (user pass : LC) (h : hasColon user = false) :
    splitFirstColon (user ++ ':' :: pass) = (user, pass) := by
  induction user with
  | nil => rfl
  | cons c cs ih =>
    simp only [hasColon, Bool.or_eq_false_iff] at h
    have hi := ih h.2
    show splitFirstColon (c :: (cs ++ ':' :: pass)) = (c :: cs, pass)
    simp only [splitFirstColon, h.1, Bool.false_eq_true, if_false, hi]

/-- C7: in the URL builder a credential containing a colon is split only on
the first colon into user and secret and embedded as URL userinfo — the
credential alice:p@ss:word yields user alice and secret p@ss:word — while a
colon-free credential such as abc123 is appended as the query parameter
apikey=abc123 and is never placed in the userinfo. -/
theorem addAuth_spec (u : StreamUrl) (user pass a : LC)
    (huser : hasColon user = false)
    (h1 : (jsTrim a).isEmpty = false) (h2 : hasColon (jsTrim a) = true) :
    splitFirstColon (user ++ ':' :: pass) = (user, pass) ∧
    (addAuthToStreamUrl (some a) u).userinfo = some (splitFirstColon (jsTrim a)) ∧
    (addAuthToStreamUrl (some a) u).params = u.params ∧
    (addAuthToStreamUrl (some "alice:p@ss:word".data) u).userinfo =
      some ("alice".data, "p@ss:word".data) ∧
    (addAuthToStreamUrl (some "abc123".data) u).userinfo = u.userinfo ∧
    ("apikey".data, "abc123".data) ∈
      (addAuthToStreamUrl (some "abc123".data) u).params := by
  refine ⟨splitFirstColon_append user pass huser, ?_, ?_, rfl, rfl, ?_⟩
  · simp only [addAuthToStreamUrl, h1, Bool.false_eq_true, if_false, h2, if_true]
  · simp only [addAuthToStreamUrl, h1, Bool.false_eq_true, if_false, h2, if_true]
  · exact setParam_mem_self u.params "apikey".data "abc123".data

/-- Witness for C7 on an empty URL and the credentials of the claim. -/
theorem addAuth_spec_witness :
    splitFirstColon ("alice".data ++ ':' :: "p@ss:word".data) =
      ("alice".data, "p@ss:word".data) ∧
    (addAuthToStreamUrl (some "alice:p@ss:word".data)
        ⟨[], none, [], []⟩).userinfo =
      some (splitFirstColon (jsTrim "alice:p@ss:word".data)) ∧
    (addAuthToStreamUrl (some "alice:p@ss:word".data)
        ⟨[], none, [], []⟩).params = ([] : List (LC × LC)) ∧
    (addAuthToStreamUrl (some "alice:p@ss:word".data)
        ⟨[], none, [], []⟩).userinfo = some ("alice".data, "p@ss:word".data) ∧
    (addAuthToStreamUrl (some "abc123".data) ⟨[], none, [], []⟩).userinfo =
      (none : Option (LC × LC)) ∧
    ("apikey".data, "abc123".data) ∈
      (addAuthToStreamUrl (some "abc123".data) ⟨[], none, [], []⟩).params :=
  addAuth_spec ⟨[], none, [], []⟩ "alice".data "p@ss:word".data
    "alice:p@ss:word".data (by decide) (by decide) (by decide)

theorem convertedBaseUrl_params (enc : LC → LC) (turl : LC) (t : TorrentInfo) :
    (convertedBaseUrl enc turl t).params =
      [("link".data, buildMagnetLink enc t.infoHash (t.sources.getD [])),
       ("play".data, "1".data), ("save".data, "true".data),
       ("index".data,
        match t.fileIdx with
        | some i => (Nat.repr (i + 1)).data
        | none => "1".data)] := by
  obtain ⟨ih, src, fi⟩ := t
  cases fi <;> rfl

/-- C8 (counterexample): the coordinator's resolved URL carries neither the
play=1 nor the save=true flag the claim requires of every playback URL. -/
theorem resolve_url_flags_counterexample :
    ¬ (("play".data, "1".data) ∈
        (resolveStreamUrl (fun s => s) "http://ts.local".data
          "magnet:?xt=urn:btih:aa".data ⟨some "file.mkv".data, some 0⟩).params ∧
       ("save".data, "true".data) ∈
        (resolveStreamUrl (fun s => s) "http://ts.local".data
          "magnet:?xt=urn:btih:aa".data ⟨some "file.mkv".data, some 0⟩).params) := by
  decide

/-- C8 (amended): the converter's templated playback URL always carries the
play=1 and save=true flags, surviving authentication injection; the
coordinator's resolved URL instead carries exactly the link and index
parameters and no playback flags. -/
theorem playback_url_flags (enc : LC → LC) (turl magnet : LC) (f : SelectedFile)
    (auth : Option LC) (t : TorrentInfo) :
    (resolveStreamUrl enc turl magnet f).params =
      [("link".data, magnet), ("index".data, (Nat.repr (f.index.getD 0)).data)] ∧
    ("play".data, "1".data) ∈ (convertedStreamUrl enc turl auth t).params ∧
    ("save".data, "true".data) ∈ (convertedStreamUrl enc turl auth t).params := by
  refine ⟨rfl, ?_, ?_⟩
  · refine addAuth_params_mem auth _ _ _ ?_ (by decide)
    rw [convertedBaseUrl_params]
    exact List.mem_cons_of_mem _ (List.mem_cons_self _ _)
  · refine addAuth_params_mem auth _ _ _ ?_ (by decide)
    rw [convertedBaseUrl_params]
    exact List.mem_cons_of_mem _ (List.mem_cons_of_mem _ (List.mem_cons_self _ _))

/-- C10: convert preserves length and order, returns unchanged every stream
failing the p2p-with-infoHash-and-no-url guard, and passes the whole list
through when no TorrServer service is configured. -/
theorem convertStreams_frame (enc : LC → LC) (serialize : StreamUrl → LC)
    (cfg : ConverterCfg) (streams : List ParsedStream) :
    (convertStreams enc serialize cfg streams).length = streams.length ∧
    (∀ (i : Nat) (s : ParsedStream), streams[i]? = some s →
      shouldConvert s = false →
      (convertStreams enc serialize cfg streams)[i]? = some s) ∧
    (cfg.hasTorrServer = false → convertStreams enc serialize cfg streams = streams) := by
  cases hg : (cfg.hasTorrServer && truthyStr cfg.torrServerUrl) with
  | false =>
    have he : convertStreams enc serialize cfg streams = streams := by
      simp only [convertStreams, hg, Bool.not_false, if_true]
    rw [he]
    exact ⟨rfl, fun _ _ hs _ => hs, fun _ => rfl⟩
  | true =>
    have he : convertStreams enc serialize cfg streams =
        streams.map (convertOne enc serialize (cfg.torrServerUrl.getD [])
          cfg.torrServerAuth) := by
      simp only [convertStreams, hg, Bool.not_true, Bool.false_eq_true, if_false]
    rw [he]
    refine ⟨List.length_map _ _, ?_, ?_⟩
    · intro i s hs hsc
      rw [List.getElem?_map, hs]
      show some (convertOne enc serialize (cfg.torrServerUrl.getD [])
        cfg.torrServerAuth s) = some s
      simp only [convertOne, hsc, Bool.false_eq_true, if_false]
    · intro hts
      rw [hts] at hg
      simp at hg

/-- Witness for C10: a debrid stream passes through the configured converter
unchanged. -/
theorem convertStreams_frame_witness :
    (convertStreams (fun s => s) (fun _ => [])
        ⟨true, some "http://ts.local".data, none⟩
        [⟨"debrid".data, some "http://x".data, none, none, none, none⟩])[0]? =
      some ⟨"debrid".data, some "http://x".data, none, none, none, none⟩ :=
  (convertStreams_frame (fun s => s) (fun _ => [])
      ⟨true, some "http://ts.local".data, none⟩
      [⟨"debrid".data, some "http://x".data, none, none, none, none⟩]).2.1
    0 _ rfl (by decide)

/-- DebridError codes raised along `_resolve`. -/
inductive DebridErrorCode
  | notImplemented
  | badRequest
  | internalServerError
  | noMatchingFile
deriving DecidableEq, Repr

/-- Result of a `_resolve` run: a playable URL, the undefined NotReady
outcome, or a thrown DebridError. -/
inductive ResolveOutcome
  | url (u : LC)
  | notReady
  | err (c : DebridErrorCode)
deriving DecidableEq, Repr

/-- One write to the playback link cache: key, value (`none` being the
negative marker) and TTL in seconds. -/
structure CacheWrite where
  key : LC
  value : Option LC
  ttl : Nat
deriving DecidableEq, Repr

/-- Observable trace of one `_resolve` run. -/
structure ResolveTrace where
  outcome : ResolveOutcome
  cacheWrites : List CacheWrite
  pollCount : Nat
  addCalled : Bool
deriving DecidableEq, Repr

/-- Episode metadata of a playback request. -/
structure PlaybackMetadata where
  season : Option Nat
  episode : Option Nat
  absoluteEpisode : Option Nat
deriving DecidableEq, Repr

/-- The fields of `PlaybackInfo` that `_resolve` reads. -/
structure PlaybackInfo where
  type : LC
  hash : LC
  sources : List LC
  metadata : Option PlaybackMetadata
  filename : Option LC
  index : Option Nat
deriving DecidableEq, Repr

/-- Environment of one `_resolve` run: the gateway response of each listing
call (call 0 happens inside `addMagnet`, call n+1 in the n-th poll
iteration), whether the add POST succeeds, the file-selector outcome, the
URL primitives and the configured positive cache TTL. -/
structure ResolveEnv where
  addCallOk : Bool
  listResponse : Nat → Option (List TorrServerTorrent)
  select : Option SelectedFile
  enc : LC → LC
  serialize : StreamUrl → LC
  positiveTtl : Nat

/-- The `listMagnets` result of the n-th listing call. -/
def listMagnetsAt (env : ResolveEnv) (n : Nat) : List DebridDownload :=
  listMagnetsOf (env.listResponse n)

/-- TORRSERVER_MAX_POLL_ATTEMPTS. -/
def maxPollAttempts : Nat := 10

/-- `addMagnet` (torrserver.ts): reject magnets without a valid hash, POST to
the gateway, re-list and find the torrent by its hash; a failed POST or a
torrent missing from the listing is a thrown DebridError. -/
def addMagnet (env : ResolveEnv) (magnet : LC) :
    Except DebridErrorCode DebridDownload :=
  match extractHashFromMagnet magnet with
  | none => .error .badRequest
  | some hash =>
    if env.addCallOk then
      match (listMagnetsAt env 0).find? (fun t => t.hash == some hash) with
      | some t => .ok t
      | none => .error .internalServerError
    else .error .internalServerError

/-- Whether one poll attempt's listing shows the hash as cached. -/
def foundCachedIn (l : List DebridDownload) (hash : LC) : Bool :=
  match l.find? (fun m => m.hash == some hash) with
  | some m => m.status == TSStatus.cached
  | none => false

/-- The bounded poll loop of `_resolve`: at listing call i, stop with the
listed torrent once it is cached, otherwise keep the download returned by the
add; also counts the iterations executed. -/
def pollLoop (env : ResolveEnv) (hash : LC) (cur : DebridDownload) :
    Nat → Nat → DebridDownload × Nat
  | _, 0 => (cur, 0)
  | i, fuel + 1 =>
    match (listMagnetsAt env i).find? (fun m => m.hash == some hash) with
    | some m =>
      if m.status == TSStatus.cached then (m, 1)
      else
        let p := pollLoop env hash cur (i + 1) fuel
        (p.1, p.2 + 1)
    | none =>
      let p := pollLoop env hash cur (i + 1) fuel
      (p.1, p.2 + 1)

/-- Template-literal rendering of an optional numeric metadata field: an
absent value renders as the word undefined. -/
def showOptNat : Option Nat → LC
  | none => "undefined".data
  | some n => (Nat.repr n).data

/-- The playback-link cache key built in `_resolve`: torrserver, the hashed
service token, the content hash and the three metadata fields. -/
def resolveCacheKey (textHash : LC → LC) (token : LC) (pi : PlaybackInfo) : LC :=
  "torrserver:".data ++ textHash token ++ ":".data ++ pi.hash ++ ":".data ++
  showOptNat (pi.metadata.bind (fun m => m.season)) ++ ":".data ++
  showOptNat (pi.metadata.bind (fun m => m.episode)) ++ ":".data ++
  showOptNat (pi.metadata.bind (fun m => m.absoluteEpisode))

/-- The cache key as a function of the whole request, requested filename
included: `_resolve` derives it from the token and playback info alone, so
the filename argument is not consulted. -/
def requestCacheKey (textHash : LC → LC) (token : LC) (pi : PlaybackInfo)
    (filename : LC) : LC :=
  resolveCacheKey textHash token pi

/-- Final stage of `_resolve` once a cached download is at hand: require a
non-empty file listing, run the selector, build, cache and return the stream
URL. -/
def resolveFinish (env : ResolveEnv) (key magnet turl : LC)
    (d : DebridDownload) (writes : List CacheWrite) (polls : Nat) :
    ResolveTrace :=
  match d.files with
  | none => ⟨.err .noMatchingFile, writes, polls, true⟩
  | some [] => ⟨.err .noMatchingFile, writes, polls, true⟩
  | some (_ :: _) =>
    match env.select with
    | none => ⟨.err .noMatchingFile, writes, polls, true⟩
    | some f =>
      let streamUrl := env.serialize (resolveStreamUrl env.enc turl magnet f)
      ⟨.url streamUrl, writes ++ [⟨key, some streamUrl, env.positiveTtl⟩], polls, true⟩

/-- `_resolve` (torrserver.ts) as a trace function of the environment, the
request, and the playback-link cache lookup result for the request's key
(absent, negative marker, or a stored URL). -/
def resolveRun (env : ResolveEnv) (textHash : LC → LC) (token turl : LC)
    (pi : PlaybackInfo) (filename : LC) (cacheAndPlay : Bool)
    (cachedLink : Option (Option LC)) : ResolveTrace :=
  if pi.type == "usenet".data then ⟨.err .notImplemented, [], 0, false⟩
  else
    let key := resolveCacheKey textHash token pi
    let magnet := buildMagnet pi.hash pi.sources
    let proceed : ResolveTrace :=
      match addMagnet env magnet with
      | .error c => ⟨.err c, [], 0, true⟩
      | .ok d =>
        if d.status == TSStatus.cached then
          resolveFinish env key magnet turl d [] 0
        else
          let negWrite : CacheWrite := ⟨key, none, 60⟩
          if !cacheAndPlay then ⟨.notReady, [negWrite], 0, true⟩
          else
            let p := pollLoop env pi.hash d 1 maxPollAttempts
            if p.1.status == TSStatus.cached then
              resolveFinish env key magnet turl p.1 [negWrite] p.2
            else ⟨.notReady, [negWrite], p.2, true⟩
    match cachedLink with
    | some (some link) => ⟨.url link, [], 0, false⟩
    | some none => if !cacheAndPlay then ⟨.notReady, [], 0, false⟩ else proceed
    | none => proceed

theorem pollLoop_count_le (env : ResolveEnv) (hash : LC) (cur : DebridDownload) :
    ∀ fuel i : Nat, (pollLoop env hash cur i fuel).2 ≤ fuel := by
  intro fuel
  induction fuel with
  | zero => intro i; exact Nat.le_refl 0
  | succ f ih =>
    intro i
    cases hf : (listMagnetsAt env i).find? (fun m => m.hash == some hash) with
    | none =>
      simp only [pollLoop, hf]
      exact Nat.succ_le_succ (ih (i + 1))
    | some m =>
      cases hs : (m.status == TSStatus.cached) with
      | true =>
        simp only [pollLoop, hf, hs, if_true]
        exact Nat.succ_le_succ (Nat.zero_le f)
      | false =>
        simp only [pollLoop, hf, hs, Bool.false_eq_true, if_false]
        exact Nat.succ_le_succ (ih (i + 1))

theorem pollLoop_exhaust (env : ResolveEnv) (hash : LC) (cur : DebridDownload) :
    ∀ fuel i : Nat,
      (∀ j, j < fuel → foundCachedIn (listMagnetsAt env (i + j)) hash = false) →
      pollLoop env hash cur i fuel = (cur, fuel) := by
  intro fuel
  induction fuel with
  | zero => intro i _; rfl
  | succ f ih =>
    intro i hmiss
    have h0 : foundCachedIn (listMagnetsAt env i) hash = false := by
      have h' := hmiss 0 (Nat.succ_pos f)
      rwa [Nat.add_zero] at h'
    have hshift : ∀ j, j < f →
        foundCachedIn (listMagnetsAt env (i + 1 + j)) hash = false := by
      intro j hj
      have h' := hmiss (j + 1) (by omega)
      have he : i + (j + 1) = i + 1 + j := by omega
      rwa [he] at h'
    cases hf : (listMagnetsAt env i).find? (fun m => m.hash == some hash) with
    | none =>
      simp only [pollLoop, hf]
      rw [ih (i + 1) hshift]
    | some m =>
      have hs : (m.status == TSStatus.cached) = false := by
        unfold foundCachedIn at h0
        rw [hf] at h0
        exact h0
      simp only [pollLoop, hf, hs, Bool.false_eq_true, if_false]
      rw [ih (i + 1) hshift]

theorem pollLoop_early (env : ResolveEnv) (hash : LC) (cur : DebridDownload) :
    ∀ fuel i j : Nat, j < fuel →
      foundCachedIn (listMagnetsAt env (i + j)) hash = true →
      (∀ k, k < j → foundCachedIn (listMagnetsAt env (i + k)) hash = false) →
      (pollLoop env hash cur i fuel).2 = j + 1 ∧
      ((pollLoop env hash cur i fuel).1.status == TSStatus.cached) = true := by
  intro fuel
  induction fuel with
  | zero => intro i j hj _ _; exact absurd hj (Nat.not_lt_zero j)
  | succ f ih =>
    intro i j hj hhit hmiss
    cases j with
    | zero =>
      rw [Nat.add_zero] at hhit
      unfold foundCachedIn at hhit
      cases hf : (listMagnetsAt env i).find? (fun m => m.hash == some hash) with
      | none => rw [hf] at hhit; cases hhit
      | some m =>
        rw [hf] at hhit
        simp only [pollLoop, hf]
        rw [if_pos hhit]
        exact ⟨rfl, hhit⟩
    | succ j' =>
      have h0 : foundCachedIn (listMagnetsAt env i) hash = false := by
        have h' := hmiss 0 (Nat.succ_pos j')
        rwa [Nat.add_zero] at h'
      have hhit' : foundCachedIn (listMagnetsAt env (i + 1 + j')) hash = true := by
        have he : i + (j' + 1) = i + 1 + j' := by omega
        rwa [he] at hhit
      have hmiss' : ∀ k, k < j' →
          foundCachedIn (listMagnetsAt env (i + 1 + k)) hash = false := by
        intro k hk
        have h' := hmiss (k + 1) (by omega)
        have he : i + (k + 1) = i + 1 + k := by omega
        rwa [he] at h'
      have hrec := ih (i + 1) j' (by omega) hhit' hmiss'
      cases hf : (listMagnetsAt env i).find? (fun m => m.hash == some hash) with
      | none =>
        simp only [pollLoop, hf]
        exact ⟨by rw [hrec.1], hrec.2⟩
      | some m =>
        have hs : (m.status == TSStatus.cached) = false := by
          unfold foundCachedIn at h0
          rw [hf] at h0
          exact h0
        simp only [pollLoop, hf, hs, Bool.false_eq_true, if_false]
        exact ⟨by rw [hrec.1], hrec.2⟩

theorem resolveFinish_pollCount (env : ResolveEnv) (key magnet turl : LC)
    (d : DebridDownload) (w : List CacheWrite) (n : Nat) :
    (resolveFinish env key magnet turl d w n).pollCount = n := by
  unfold resolveFinish
  cases hf : d.files with
  | none => rfl
  | some fs =>
    cases fs with
    | nil => rfl
    | cons a as =>
      cases hs : env.select with
      | none => rfl
      | some f => rfl

theorem resolveRun_poll_reduce (env : ResolveEnv) (textHash : LC → LC)
    (token turl : LC) (pi : PlaybackInfo) (filename : LC)
    (cachedLink : Option (Option LC)) (d : DebridDownload)
    (hus : (pi.type == "usenet".data) = false)
    (hc : cachedLink = none ∨ cachedLink = some none)
    (hadd : addMagnet env (buildMagnet pi.hash pi.sources) = .ok d)
    (hst : (d.status == TSStatus.cached) = false) :
    resolveRun env textHash token turl pi filename true cachedLink =
      (if ((pollLoop env pi.hash d 1 maxPollAttempts).1.status ==
            TSStatus.cached) = true then
        resolveFinish env (resolveCacheKey textHash token pi)
          (buildMagnet pi.hash pi.sources) turl
          (pollLoop env pi.hash d 1 maxPollAttempts).1
          [⟨resolveCacheKey textHash token pi, none, 60⟩]
          (pollLoop env pi.hash d 1 maxPollAttempts).2
      else
        ⟨ResolveOutcome.notReady,
         [⟨resolveCacheKey textHash token pi, none, 60⟩],
         (pollLoop env pi.hash d 1 maxPollAttempts).2, true⟩) := by
  rcases hc with hc | hc <;> subst hc <;>
    simp only [resolveRun, hus, Bool.false_eq_true, if_false, hadd, hst,
      Bool.not_true, if_true]

/-- C1: for a playback request with waiting disallowed (cacheAndPlay false)
and no cached link, when the add call returns a torrent whose status is not
cached, `_resolve` writes exactly one negative (null) cache entry with the
short 60-second TTL and returns NotReady (undefined) without executing any
polling iteration. -/
theorem resolve_notready_fast (env : ResolveEnv) (textHash : LC → LC)
    (token turl : LC) (pi : PlaybackInfo) (filename : LC) (d : DebridDownload)
    (hus : (pi.type == "usenet".data) = false)
    (hadd : addMagnet env (buildMagnet pi.hash pi.sources) = .ok d)
    (hst : (d.status == TSStatus.cached) = false) :
    resolveRun env textHash token turl pi filename false none =
      ⟨ResolveOutcome.notReady,
       [⟨resolveCacheKey textHash token pi, none, 60⟩], 0, true⟩ := by
  simp only [resolveRun, hus, Bool.false_eq_true, if_false, hadd, hst,
    Bool.not_false, if_true]

/-- Witness for C1: a downloading torrent and a non-waiting request yield the
negative write and NotReady with zero polls. -/
theorem resolve_notready_fast_witness :
    resolveRun
        ⟨true,
         fun _ => some [⟨"aaaaaaaaaaaaaaaaaaaaaaaaaaaaaaaaaaaaaaaa".data,
           none, none, some 1, none⟩],
         none, fun s => s, fun _ => [], 3600⟩
        (fun s => s) "tok".data "http://ts.local".data
        ⟨"torrent".data, "aaaaaaaaaaaaaaaaaaaaaaaaaaaaaaaaaaaaaaaa".data,
         [], none, none, none⟩
        "file.mkv".data false none =
      ⟨ResolveOutcome.notReady,
       [⟨resolveCacheKey (fun s => s) "tok".data
          ⟨"torrent".data, "aaaaaaaaaaaaaaaaaaaaaaaaaaaaaaaaaaaaaaaa".data,
           [], none, none, none⟩, none, 60⟩], 0, true⟩ :=
  resolve_notready_fast
    ⟨true,
     fun _ => some [⟨"aaaaaaaaaaaaaaaaaaaaaaaaaaaaaaaaaaaaaaaa".data,
       none, none, some 1, none⟩],
     none, fun s => s, fun _ => [], 3600⟩
    (fun s => s) "tok".data "http://ts.local".data
    ⟨"torrent".data, "aaaaaaaaaaaaaaaaaaaaaaaaaaaaaaaaaaaaaaaa".data,
     [], none, none, none⟩
    "file.mkv".data
    ⟨"aaaaaaaaaaaaaaaaaaaaaaaaaaaaaaaaaaaaaaaa".data,
     some "aaaaaaaaaaaaaaaaaaaaaaaaaaaaaaaaaaaaaaaa".data,
     none, none, TSStatus.downloading, none⟩
    rfl rfl rfl

/-- C4: when waiting is permitted and the submitted torrent is not yet
cached, `_resolve` performs at most the fixed maximum number of polling
iterations, stops polling right after the first attempt whose listing shows
the hash cached, and when every attempt misses it returns NotReady (undefined)
after exactly the maximum number of iterations rather than throwing. -/
theorem resolve_poll_bounded (env : ResolveEnv) (textHash : LC → LC)
    (token turl : LC) (pi : PlaybackInfo) (filename : LC)
    (cachedLink : Option (Option LC)) (d : DebridDownload)
    (hus : (pi.type == "usenet".data) = false)
    (hc : cachedLink = none ∨ cachedLink = some none)
    (hadd : addMagnet env (buildMagnet pi.hash pi.sources) = .ok d)
    (hst : (d.status == TSStatus.cached) = false) :
    (resolveRun env textHash token turl pi filename true cachedLink).pollCount ≤
      maxPollAttempts ∧
    ((∀ j, j < maxPollAttempts →
        foundCachedIn (listMagnetsAt env (1 + j)) pi.hash = false) →
      (resolveRun env textHash token turl pi filename true cachedLink).outcome =
        ResolveOutcome.notReady ∧
      (resolveRun env textHash token turl pi filename true cachedLink).pollCount =
        maxPollAttempts) ∧
    (∀ j, j < maxPollAttempts →
      foundCachedIn (listMagnetsAt env (1 + j)) pi.hash = true →
      (∀ k, k < j → foundCachedIn (listMagnetsAt env (1 + k)) pi.hash = false) →
      (resolveRun env textHash token turl pi filename true cachedLink).pollCount =
        j + 1) := by
  rw [resolveRun_poll_reduce env textHash token turl pi filename cachedLink d
    hus hc hadd hst]
  refine ⟨?_, ?_, ?_⟩
  · by_cases hcond : ((pollLoop env pi.hash d 1 maxPollAttempts).1.status ==
        TSStatus.cached) = true
    · rw [if_pos hcond, resolveFinish_pollCount]
      exact pollLoop_count_le env pi.hash d maxPollAttempts 1
    · rw [if_neg hcond]
      exact pollLoop_count_le env pi.hash d maxPollAttempts 1
  · intro hmiss
    have hex := pollLoop_exhaust env pi.hash d maxPollAttempts 1 hmiss
    rw [hex]
    have hne : ¬ ((((d, maxPollAttempts) :
        DebridDownload × Nat).1.status == TSStatus.cached) = true) := by
      show ¬ ((d.status == TSStatus.cached) = true)
      rw [hst]
      exact Bool.false_ne_true
    rw [if_neg hne]
    exact ⟨rfl, rfl⟩
  · intro j hj hhit hmiss
    have hearly := pollLoop_early env pi.hash d maxPollAttempts 1 j hj hhit hmiss
    rw [if_pos hearly.2, resolveFinish_pollCount]
    exact hearly.1

/-- Witness for C4: with every poll listing showing the torrent still
downloading, the run ends NotReady after the full ten iterations. -/
theorem resolve_poll_bounded_witness :
    (resolveRun
        ⟨true,
         fun _ => some [⟨"aaaaaaaaaaaaaaaaaaaaaaaaaaaaaaaaaaaaaaaa".data,
           none, none, some 1, none⟩],
         none, fun s => s, fun _ => [], 3600⟩
        (fun s => s) "tok".data "http://ts.local".data
        ⟨"torrent".data, "aaaaaaaaaaaaaaaaaaaaaaaaaaaaaaaaaaaaaaaa".data,
         [], none, none, none⟩
        "file.mkv".data true none).outcome = ResolveOutcome.notReady ∧
    (resolveRun
        ⟨true,
         fun _ => some [⟨"aaaaaaaaaaaaaaaaaaaaaaaaaaaaaaaaaaaaaaaa".data,
           none, none, some 1, none⟩],
         none, fun s => s, fun _ => [], 3600⟩
        (fun s => s) "tok".data "http://ts.local".data
        ⟨"torrent".data, "aaaaaaaaaaaaaaaaaaaaaaaaaaaaaaaaaaaaaaaa".data,
         [], none, none, none⟩
        "file.mkv".data true none).pollCount = maxPollAttempts :=
  (resolve_poll_bounded
    ⟨true,
     fun _ => some [⟨"aaaaaaaaaaaaaaaaaaaaaaaaaaaaaaaaaaaaaaaa".data,
       none, none, some 1, none⟩],
     none, fun s => s, fun _ => [], 3600⟩
    (fun s => s) "tok".data "http://ts.local".data
    ⟨"torrent".data, "aaaaaaaaaaaaaaaaaaaaaaaaaaaaaaaaaaaaaaaa".data,
     [], none, none, none⟩
    "file.mkv".data none
    ⟨"aaaaaaaaaaaaaaaaaaaaaaaaaaaaaaaaaaaaaaaa".data,
     some "aaaaaaaaaaaaaaaaaaaaaaaaaaaaaaaaaaaaaaaa".data,
     none, none, TSStatus.downloading, none⟩
    rfl (Or.inl rfl) rfl rfl).2.1 (fun _ _ => rfl)

/-- C5: a positive playback-link cache entry makes `_resolve` return its URL
immediately with no add call; a negative entry returns NotReady immediately
exactly when waiting is disallowed; with waiting permitted a negative entry
is ignored and the run proceeds identically to a cache miss. -/
theorem resolve_cache_semantics (env : ResolveEnv) (textHash : LC → LC)
    (token turl : LC) (pi : PlaybackInfo) (filename : LC) (cacheAndPlay : Bool)
    (u : LC) (hus : (pi.type == "usenet".data) = false) :
    resolveRun env textHash token turl pi filename cacheAndPlay (some (some u)) =
      ⟨ResolveOutcome.url u, [], 0, false⟩ ∧
    resolveRun env textHash token turl pi filename false (some none) =
      ⟨ResolveOutcome.notReady, [], 0, false⟩ ∧
    resolveRun env textHash token turl pi filename true (some none) =
      resolveRun env textHash token turl pi filename true none := by
  refine ⟨?_, ?_, ?_⟩ <;>
    simp only [resolveRun, hus, Bool.false_eq_true, if_false, Bool.not_false,
      Bool.not_true, if_true]

/-- Witness for C5 at a concrete request and environment. -/
theorem resolve_cache_semantics_witness :
    resolveRun
        ⟨true,
         fun _ => some [⟨"aaaaaaaaaaaaaaaaaaaaaaaaaaaaaaaaaaaaaaaa".data,
           none, none, some 1, none⟩],
         none, fun s => s, fun _ => [], 3600⟩
        (fun s => s) "tok".data "http://ts.local".data
        ⟨"torrent".data, "aaaaaaaaaaaaaaaaaaaaaaaaaaaaaaaaaaaaaaaa".data,
         [], none, none, none⟩
        "file.mkv".data false (some (some "http://link".data)) =
      ⟨ResolveOutcome.url "http://link".data, [], 0, false⟩ ∧
    resolveRun
        ⟨true,
         fun _ => some [⟨"aaaaaaaaaaaaaaaaaaaaaaaaaaaaaaaaaaaaaaaa".data,
           none, none, some 1, none⟩],
         none, fun s => s, fun _ => [], 3600⟩
        (fun s => s) "tok".data "http://ts.local".data
        ⟨"torrent".data, "aaaaaaaaaaaaaaaaaaaaaaaaaaaaaaaaaaaaaaaa".data,
         [], none, none, none⟩
        "file.mkv".data false (some none) =
      ⟨ResolveOutcome.notReady, [], 0, false⟩ ∧
    resolveRun
        ⟨true,
         fun _ => some [⟨"aaaaaaaaaaaaaaaaaaaaaaaaaaaaaaaaaaaaaaaa".data,
           none, none, some 1, none⟩],
         none, fun s => s, fun _ => [], 3600⟩
        (fun s => s) "tok".data "http://ts.local".data
        ⟨"torrent".data, "aaaaaaaaaaaaaaaaaaaaaaaaaaaaaaaaaaaaaaaa".data,
         [], none, none, none⟩
        "file.mkv".data true (some none) =
      resolveRun
        ⟨true,
         fun _ => some [⟨"aaaaaaaaaaaaaaaaaaaaaaaaaaaaaaaaaaaaaaaa".data,
           none, none, some 1, none⟩],
         none, fun s => s, fun _ => [], 3600⟩
        (fun s => s) "tok".data "http://ts.local".data
        ⟨"torrent".data, "aaaaaaaaaaaaaaaaaaaaaaaaaaaaaaaaaaaaaaaa".data,
         [], none, none, none⟩
        "file.mkv".data true none :=
  resolve_cache_semantics
    ⟨true,
     fun _ => some [⟨"aaaaaaaaaaaaaaaaaaaaaaaaaaaaaaaaaaaaaaaa".data,
       none, none, some 1, none⟩],
     none, fun s => s, fun _ => [], 3600⟩
    (fun s => s) "tok".data "http://ts.local".data
    ⟨"torrent".data, "aaaaaaaaaaaaaaaaaaaaaaaaaaaaaaaaaaaaaaaa".data,
     [], none, none, none⟩
    "file.mkv".data false "http://link".data rfl

/-- C6 (counterexample): two playback requests agreeing on content hash and
metadata but differing in the requested filename are mapped to one and the
same playback-link cache key, refuting the claimed key distinctness in the
requestedFilename component. -/
theorem cache_key_filename_counterexample :
    requestCacheKey (fun s => s) "tok".data
        ⟨"torrent".data, "aa".data, [], none, none, none⟩ "a.mkv".data =
      requestCacheKey (fun s => s) "tok".data
        ⟨"torrent".data, "aa".data, [], none, none, none⟩ "b.mkv".data ∧
    "a.mkv".data ≠ "b.mkv".data :=
  ⟨rfl, by decide⟩

theorem hasColon_append (l1 l2 : LC) :
    hasColon (l1 ++ l2) = (hasColon l1 || hasColon l2) := by
  induction l1 with
  | nil => simp [hasColon]
  | cons c cs ih => simp [hasColon, ih, Bool.or_assoc]

theorem hasColon_reverse (l : LC) : hasColon l.reverse = hasColon l := by
  induction l with
  | nil => rfl
  | cons c cs ih =>
    rw [List.reverse_cons, hasColon_append, ih]
    simp [hasColon, Bool.or_comm]

theorem rev_inj (x y : LC) (h : x.reverse = y.reverse) : x = y := by
  rw [← List.reverse_reverse x, h, List.reverse_reverse]

theorem colon_field_cancel : ∀ a b p q : LC, hasColon a = false →
    hasColon b = false → a ++ ':' :: p = b ++ ':' :: q → a = b ∧ p = q := by
  intro a
  induction a with
  | nil =>
    intro b p q _ hb h
    cases b with
    | nil =>
      rw [List.nil_append, List.nil_append] at h
      injection h with _ h2
      exact ⟨rfl, h2⟩
    | cons c bs =>
      rw [List.nil_append, List.cons_append] at h
      injection h with h1 _
      rw [← h1] at hb
      simp [hasColon] at hb
  | cons c as ih =>
    intro b p q ha hb h
    cases b with
    | nil =>
      rw [List.cons_append, List.nil_append] at h
      injection h with h1 _
      rw [h1] at ha
      simp [hasColon] at ha
    | cons c' bs =>
      rw [List.cons_append, List.cons_append] at h
      injection h with h1 h2
      simp only [hasColon, Bool.or_eq_false_iff] at ha hb
      obtain ⟨hab, hpq⟩ := ih bs p q ha.2 hb.2 h2
      exact ⟨by rw [h1, hab], hpq⟩

theorem digitChar_isDigit : ∀ k, k < 10 → (Nat.digitChar k).isDigit = true := by
  decide

theorem digitChar_inj : ∀ i, i < 10 → ∀ j, j < 10 →
    Nat.digitChar i = Nat.digitChar j → i = j := by
  decide

/-- The decimal digit characters `Nat.repr` produces, defined structurally by
peeling the last digit. -/
def natChars (n : Nat) : LC :=
  if h : n < 10 then [Nat.digitChar n]
  else natChars (n / 10) ++ [Nat.digitChar (n % 10)]
termination_by n
decreasing_by
  exact Nat.div_lt_self (by omega) (by omega)

theorem natChars_lt (n : Nat) (h : n < 10) : natChars n = [Nat.digitChar n] := by
  rw [natChars.eq_def]
  rw [dif_pos h]

theorem natChars_ge (n : Nat) (h : ¬ n < 10) :
    natChars n = natChars (n / 10) ++ [Nat.digitChar (n % 10)] := by
  rw [natChars.eq_def]
  rw [dif_neg h]

theorem natChars_length (n : Nat) : 0 < (natChars n).length := by
  by_cases h : n < 10
  · rw [natChars_lt n h]; simp
  · rw [natChars_ge n h]; simp

theorem natChars_digits (n : Nat) : ∀ c ∈ natChars n, c.isDigit = true := by
  induction n using Nat.strong_induction_on with
  | _ n ih =>
    by_cases h : n < 10
    · rw [natChars_lt n h]
      intro c hc
      rw [List.mem_singleton] at hc
      rw [hc]
      exact digitChar_isDigit n h
    · rw [natChars_ge n h]
      intro c hc
      rcases List.mem_append.mp hc with h1 | h2
      · exact ih (n / 10) (Nat.div_lt_self (by omega) (by omega)) c h1
      · rw [List.mem_singleton] at h2
        rw [h2]
        exact digitChar_isDigit (n % 10) (Nat.mod_lt n (by omega))

theorem natChars_inj : ∀ a b : Nat, natChars a = natChars b → a = b := by
  intro a
  induction a using Nat.strong_induction_on with
  | _ a ih =>
    intro b hab
    by_cases ha : a < 10 <;> by_cases hb : b < 10
    · rw [natChars_lt a ha, natChars_lt b hb] at hab
      injection hab with h1 _
      exact digitChar_inj a ha b hb h1
    · exfalso
      rw [natChars_lt a ha, natChars_ge b hb] at hab
      have hlen := congrArg List.length hab
      simp only [List.length_append, List.length_singleton] at hlen
      have hpos := natChars_length (b / 10)
      omega
    · exfalso
      rw [natChars_ge a ha, natChars_lt b hb] at hab
      have hlen := congrArg List.length hab
      simp only [List.length_append, List.length_singleton] at hlen
      have hpos := natChars_length (a / 10)
      omega
    · rw [natChars_ge a ha, natChars_ge b hb] at hab
      have hrev := congrArg List.reverse hab
      simp only [List.reverse_append, List.reverse_cons, List.reverse_nil,
        List.nil_append, List.singleton_append] at hrev
      injection hrev with h1 h2
      have hmod : a % 10 = b % 10 :=
        digitChar_inj (a % 10) (Nat.mod_lt a (by omega)) (b % 10)
          (Nat.mod_lt b (by omega)) h1
      have hdiv : a / 10 = b / 10 :=
        ih (a / 10) (Nat.div_lt_self (by omega) (by omega)) (b / 10)
          (rev_inj _ _ h2)
      omega

theorem toDigitsCore_natChars : ∀ (f n : Nat) (l : LC), 0 < n → n < 10 ^ f →
    Nat.toDigitsCore 10 f n l = natChars n ++ l := by
  intro f
  induction f with
  | zero =>
    intro n l hn hlt
    simp [Nat.pow_zero] at hlt
    omega
  | succ f ih =>
    intro n l hn hlt
    by_cases hz : n / 10 = 0
    · have hn10 : n < 10 := by omega
      simp only [Nat.toDigitsCore, hz, if_true]
      rw [natChars_lt n hn10, Nat.mod_eq_of_lt hn10]
      rfl
    · have hge : ¬ n < 10 := by omega
      have hdivlt : n / 10 < 10 ^ f := by
        have hlt' : n < 10 * 10 ^ f := by
          rw [Nat.pow_succ] at hlt
          omega
        exact Nat.div_lt_of_lt_mul hlt'
      simp only [Nat.toDigitsCore, hz, if_false]
      rw [ih (n / 10) (Nat.digitChar (n % 10) :: l) (Nat.pos_of_ne_zero hz) hdivlt,
        natChars_ge n hge, List.append_assoc, List.singleton_append]

theorem lt_ten_pow (n : Nat) : n < 10 ^ (n + 1) := by
  induction n with
  | zero => decide
  | succ k ih =>
    rw [Nat.pow_succ]
    omega

theorem toDigits_eq_natChars (n : Nat) : Nat.toDigits 10 n = natChars n := by
  by_cases h : n = 0
  · rw [h, natChars_lt 0 (by omega)]
    rfl
  · have := toDigitsCore_natChars (n + 1) n [] (Nat.pos_of_ne_zero h) (lt_ten_pow n)
    unfold Nat.toDigits
    rw [this, List.append_nil]

theorem repr_data_eq_natChars (n : Nat) : (Nat.repr n).data = natChars n := by
  show (Nat.toDigits 10 n) = natChars n
  exact toDigits_eq_natChars n

theorem hasColon_false_of_digits : ∀ l : LC, (∀ c ∈ l, c.isDigit = true) →
    hasColon l = false := by
  intro l
  induction l with
  | nil => intro _; rfl
  | cons c cs ih =>
    intro h
    have hc := h c (List.mem_cons_self c cs)
    have hne : (c == ':') = false := by
      cases hcc : c == ':' with
      | false => rfl
      | true =>
        rw [eq_of_beq hcc] at hc
        exact absurd hc (by decide)
    simp only [hasColon, hne, Bool.false_or]
    exact ih (fun c' hc' => h c' (List.mem_cons_of_mem c hc'))

theorem showOptNat_hasColon (v : Option Nat) : hasColon (showOptNat v) = false := by
  cases v with
  | none => decide
  | some n =>
    show hasColon (Nat.repr n).data = false
    rw [repr_data_eq_natChars]
    exact hasColon_false_of_digits _ (natChars_digits n)

theorem showOptNat_inj (v w : Option Nat) (h : showOptNat v = showOptNat w) :
    v = w := by
  cases v with
  | none =>
    cases w with
    | none => rfl
    | some m =>
      exfalso
      have hu : ('u' : Char) ∈ (Nat.repr m).data := by
        have h' : "undefined".data = (Nat.repr m).data := h
        rw [← h']
        decide
      rw [repr_data_eq_natChars] at hu
      exact absurd (natChars_digits m 'u' hu) (by decide)
  | some n =>
    cases w with
    | none =>
      exfalso
      have hu : ('u' : Char) ∈ (Nat.repr n).data := by
        have h' : (Nat.repr n).data = "undefined".data := h
        rw [h']
        decide
      rw [repr_data_eq_natChars] at hu
      exact absurd (natChars_digits n 'u' hu) (by decide)
    | some m =>
      have h' : (Nat.repr n).data = (Nat.repr m).data := h
      rw [repr_data_eq_natChars, repr_data_eq_natChars] at h'
      rw [natChars_inj n m h']

theorem key_reverse_eq (textHash : LC → LC) (token : LC) (pi : PlaybackInfo) :
    (resolveCacheKey textHash token pi).reverse =
      (showOptNat (pi.metadata.bind (fun m => m.absoluteEpisode))).reverse ++
      ':' :: ((showOptNat (pi.metadata.bind (fun m => m.episode))).reverse ++
      ':' :: ((showOptNat (pi.metadata.bind (fun m => m.season))).reverse ++
      ':' :: (pi.hash.reverse ++
      ':' :: ((textHash token).reverse ++ "torrserver:".data.reverse)))) := by
  simp [resolveCacheKey, List.reverse_append]

/-- C6 (amended): the playback-link cache key is a deterministic function of
exactly the hashed service token together with (contentHash, season, episode,
absoluteEpisode): the requested filename does not enter the key, requests
agreeing on that tuple share the key regardless of call order and filenames,
and — for the colon-free 40-hex content hashes the service handles — requests
under the same token differing in contentHash, season, episode or
absoluteEpisode map to distinct keys. -/
theorem cache_key_deterministic (textHash : LC → LC) (token : LC)
    (p q : PlaybackInfo) (fn fn' : LC)
    (hp : hasColon p.hash = false) (hq : hasColon q.hash = false) :
    requestCacheKey textHash token p fn = requestCacheKey textHash token p fn' ∧
    (p.hash = q.hash ∧
     p.metadata.bind (fun m => m.season) = q.metadata.bind (fun m => m.season) ∧
     p.metadata.bind (fun m => m.episode) = q.metadata.bind (fun m => m.episode) ∧
     p.metadata.bind (fun m => m.absoluteEpisode) =
       q.metadata.bind (fun m => m.absoluteEpisode) →
     requestCacheKey textHash token p fn = requestCacheKey textHash token q fn') ∧
    (requestCacheKey textHash token p fn = requestCacheKey textHash token q fn' →
     p.hash = q.hash ∧
     p.metadata.bind (fun m => m.season) = q.metadata.bind (fun m => m.season) ∧
     p.metadata.bind (fun m => m.episode) = q.metadata.bind (fun m => m.episode) ∧
     p.metadata.bind (fun m => m.absoluteEpisode) =
       q.metadata.bind (fun m => m.absoluteEpisode)) := by
  refine ⟨rfl, ?_, ?_⟩
  · intro ⟨hh, hs, he, ha⟩
    unfold requestCacheKey resolveCacheKey
    rw [hh, hs, he, ha]
  · intro hkey
    have hrev := congrArg List.reverse hkey
    unfold requestCacheKey at hrev
    rw [key_reverse_eq textHash token p, key_reverse_eq textHash token q] at hrev
    obtain ⟨ha, hrev⟩ := colon_field_cancel _ _ _ _
      (by rw [hasColon_reverse]; exact showOptNat_hasColon _)
      (by rw [hasColon_reverse]; exact showOptNat_hasColon _) hrev
    obtain ⟨he, hrev⟩ := colon_field_cancel _ _ _ _
      (by rw [hasColon_reverse]; exact showOptNat_hasColon _)
      (by rw [hasColon_reverse]; exact showOptNat_hasColon _) hrev
    obtain ⟨hs, hrev⟩ := colon_field_cancel _ _ _ _
      (by rw [hasColon_reverse]; exact showOptNat_hasColon _)
      (by rw [hasColon_reverse]; exact showOptNat_hasColon _) hrev
    obtain ⟨hh, _⟩ := colon_field_cancel _ _ _ _
      (by rw [hasColon_reverse]; exact hp)
      (by rw [hasColon_reverse]; exact hq) hrev
    exact ⟨rev_inj _ _ hh, showOptNat_inj _ _ (rev_inj _ _ hs),
      showOptNat_inj _ _ (rev_inj _ _ he), showOptNat_inj _ _ (rev_inj _ _ ha)⟩

/-- Witness for C6 (amended): under one token, two requests differing only in
their filenames share the key, while two requests differing in the season map
to distinct keys. -/
theorem cache_key_deterministic_witness :
    requestCacheKey (fun s => s) "tok".data
        ⟨"torrent".data, "bb".data, [], some ⟨some 1, some 2, none⟩, none, none⟩
        "x.mkv".data =
      requestCacheKey (fun s => s) "tok".data
        ⟨"torrent".data, "bb".data, [], some ⟨some 1, some 2, none⟩, none, none⟩
        "y.mkv".data ∧
    requestCacheKey (fun s => s) "tok".data
        ⟨"torrent".data, "bb".data, [], some ⟨some 1, some 2, none⟩, none, none⟩
        "x.mkv".data ≠
      requestCacheKey (fun s => s) "tok".data
        ⟨"torrent".data, "bb".data, [], some ⟨some 3, some 2, none⟩, none, none⟩
        "y.mkv".data :=
  ⟨(cache_key_deterministic (fun s => s) "tok".data
      ⟨"torrent".data, "bb".data, [], some ⟨some 1, some 2, none⟩, none, none⟩
      ⟨"torrent".data, "bb".data, [], some ⟨some 3, some 2, none⟩, none, none⟩
      "x.mkv".data "y.mkv".data (by decide) (by decide)).1,
   fun h =>
    absurd ((cache_key_deterministic (fun s => s) "tok".data
      ⟨"torrent".data, "bb".data, [], some ⟨some 1, some 2, none⟩, none, none⟩
      ⟨"torrent".data, "bb".data, [], some ⟨some 3, some 2, none⟩, none, none⟩
      "x.mkv".data "y.mkv".data (by decide) (by decide)).2.2 h).2.1 (by decide)⟩
